import Mathlib

/-!
# build.js of elm-feather-icons

The script under verification:

    const feather = require('feather-icons');

    require('./source-builder.js')
        .Headless
        .worker(Object.keys(feather.icons).map(x => ([ x, feather.icons[x].contents])))
        .ports
        .output
        .subscribe(x => console.log(x));

The development embeds the JavaScript fragments the script is made of
(own-property enumeration, property lookup, `Array.prototype.map` with a
throwing callback, the logging callback, the two calls into the
`source-builder` module) and states the properties of the script over them.
-/

namespace FeatherBuild

/-! ## JavaScript values and objects -/

/-- Primitive JavaScript values, as far as the components of a work item can hold them. -/
inductive JsVal where
  | undefined
  | null
  | bool (b : Bool)
  | num (n : Int)
  | str (s : String)
  deriving DecidableEq, Repr

/-- Exceptions the script itself can raise. -/
inductive JsError where
  | typeError (msg : String)
  deriving DecidableEq, Repr

/-- Own enumerable string-keyed properties of a JavaScript object, in the order
`Object.keys` enumerates them. An object holds at most one property per key. -/
structure JsObject (α : Type) where
  entries : List (String × α)
  nodup : (entries.map Prod.fst).Nodup

namespace JsObject

variable {α : Type}

/-- The expression `Object.keys(o)`. -/
def keys (o : JsObject α) : List String :=
  o.entries.map Prod.fst

/-- The expression `o[k]` for an own property: `none` stands for `undefined`. -/
def get (o : JsObject α) (k : String) : Option α :=
  o.entries.lookup k

/-- Number of own enumerable properties. -/
def size (o : JsObject α) : Nat :=
  o.entries.length

end JsObject

/-- Modelled from the spec: the icon record of the icon-data collaborator (the
`feather-icons` package, which is not among the sources). The spec gives the
content as a string; the remaining fields are the ones the package attaches to
an icon and the script never reads. -/
structure Icon where
  name : String
  contents : String
  tags : List String
  attrs : List (String × String)
  toSvg : List (String × String) → String

/-! ## The batch expression -/

/-- The method `Array.prototype.map` with a callback that may throw: the first
exception aborts the whole map. -/
def mapExcept {α β ε : Type} (f : α → Except ε β) : List α → Except ε (List β)
  | [] => .ok []
  | x :: xs =>
    match f x with
    | .error e => .error e
    | .ok y =>
      match mapExcept f xs with
      | .error e => .error e
      | .ok ys => .ok (y :: ys)

/-- The arrow function `x => ([ x, feather.icons[x].contents])`: reading
`.contents` of `undefined` throws a `TypeError`. -/
def workItem (icons : JsObject Icon) (x : String) : Except JsError (JsVal × JsVal) :=
  match icons.get x with
  | none => .error (.typeError "Cannot read properties of undefined (reading contents)")
  | some icon => .ok (.str x, .str icon.contents)

/-- The argument of `worker`:
`Object.keys(feather.icons).map(x => ([ x, feather.icons[x].contents]))`. -/
def submittedBatch (icons : JsObject Icon) : Except JsError (List (JsVal × JsVal)) :=
  mapExcept (workItem icons) icons.keys

/-! ## The subscriber -/

/-- The console, as the sequence of values passed to `console.log`, oldest first. -/
abbrev Console (α : Type) := List α

/-- The call `console.log(x)`. -/
def consoleLog {α : Type} (x : α) (c : Console α) : Console α :=
  c ++ [x]

/-- The arrow function `x => console.log(x)` handed to `subscribe`. -/
def subscriber {α : Type} (x : α) (c : Console α) : Console α :=
  consoleLog x c

/-- A port invoking a callback once per value delivered, in delivery order. -/
def deliver {α σ : Type} (callback : α → σ → σ) : List α → σ → σ
  | [], s => s
  | x :: xs, s => deliver callback xs (callback x s)

/-! ## The script and the calls it makes into `source-builder.js` -/

/-- A call the script makes into the `source-builder` module. -/
inductive Call (α : Type) where
  | worker (batch : List (JsVal × JsVal)) (returned : Nat)
  | subscribe (handle : Nat) (port : String) (callback : α → Console α → Console α)

/-- The `source-builder` module seen from the script: the handles it has given
out so far and the calls it has received, oldest first. -/
structure Host (α : Type) where
  nextHandle : Nat
  calls : List (Call α)

/-- The call `Headless.worker(batch)`: it returns a fresh pipeline handle. -/
def Host.worker {α : Type} (batch : List (JsVal × JsVal)) (h : Host α) : Nat × Host α :=
  (h.nextHandle,
    { nextHandle := h.nextHandle + 1, calls := h.calls ++ [Call.worker batch h.nextHandle] })

/-- The call `handle.ports[port].subscribe(callback)`. -/
def Host.subscribe {α : Type} (handle : Nat) (port : String)
    (callback : α → Console α → Console α) (h : Host α) : Host α :=
  { h with calls := h.calls ++ [Call.subscribe handle port callback] }

/-- The statement
`require('./source-builder.js').Headless.worker(BATCH).ports.output.subscribe(x => console.log(x))`
run against a host. The argument `BATCH` is evaluated before `worker` is
entered, so an exception in it leaves the module uncalled. -/
def build {α : Type} (icons : JsObject Icon) (h : Host α) : Except JsError (Host α) :=
  match submittedBatch icons with
  | .error e => .error e
  | .ok batch =>
    match h.worker batch with
    | (handle, h1) => .ok (h1.subscribe handle "output" subscriber)

/-! ## The headless pipeline of the spec -/

/-- Modelled from the spec: an event on the `output` port, which is missing from
the sources together with the rest of `source-builder.js`. A `Result{name, value}`,
a `TransformationError{name, cause}` or the completion signal. -/
inductive Event where
  | result (name value : String)
  | error (name cause : String)
  | done
  deriving DecidableEq, Repr

/-- Modelled from the spec: a terminal event is a Result or a
TransformationError, as opposed to the completion signal. -/
def Event.isTerminal : Event → Bool
  | .result _ _ => true
  | .error _ _ => true
  | .done => false

/-- Modelled from the spec: the `name` field of a Result or TransformationError. -/
def Event.name? : Event → Option String
  | .result n _ => some n
  | .error n _ => some n
  | .done => none

/-- Modelled from the spec: the transformation collaborator, an opaque pure
function `payload -> value | Error` that may fail independently per item. -/
abbrev Transform := String → Except String String

/-- Modelled from the spec: the errors the pipeline raises to its caller. -/
inductive PipelineError where
  | submissionError
  | subscriptionError
  deriving DecidableEq, Repr

/-- Modelled from the spec: the pipeline behind `Headless.worker`. It owns the
queue of work items not yet processed and the `output` port. `log` is the
sequence of events the port has emitted, `finished` tells whether the
completion signal is among them, and `inboxes` holds, per registered
subscriber in registration order, the events delivered to it so far. -/
structure Pipeline where
  pending : List (String × String)
  log : List Event
  inboxes : List (List Event)
  finished : Bool
  deriving DecidableEq, Repr

/-- Modelled from the spec: a well-formed WorkItem has a string name and a
string payload; anything else is malformed. -/
def toWorkItem : JsVal × JsVal → Option (String × String)
  | (.str n, .str p) => some (n, p)
  | _ => none

/-- Modelled from the spec: the work items of a batch, or `none` when one pair
of the batch is malformed. -/
def decodeBatch : List (JsVal × JsVal) → Option (List (String × String))
  | [] => some []
  | b :: bs =>
    match toWorkItem b, decodeBatch bs with
    | some item, some items => some (item :: items)
    | _, _ => none

/-- Modelled from the spec: the duplicate-name condition of a batch. -/
def hasDuplicateName : List (String × String) → Bool
  | [] => false
  | item :: rest => rest.any (fun other => other.1 == item.1) || hasDuplicateName rest

/-- Modelled from the spec: `worker(items)`. A malformed batch or a batch with
a duplicate name raises `SubmissionError` before any processing begins;
otherwise the handle is returned at once, nothing emitted yet. The empty batch
is legal. -/
def worker (batch : List (JsVal × JsVal)) : Except PipelineError Pipeline :=
  match decodeBatch batch with
  | none => .error .submissionError
  | some items =>
    if hasDuplicateName items then .error .submissionError
    else .ok { pending := items, log := [], inboxes := [], finished := false }

/-- The pair a well-formed work item is submitted as. -/
def encodeItem (item : String × String) : JsVal × JsVal :=
  (.str item.1, .str item.2)

/-- Modelled from the spec: processing one item gives its Result, or its
TransformationError when the transformation fails. -/
def processItem (t : Transform) (item : String × String) : Event :=
  match t item.2 with
  | .ok v => .result item.1 v
  | .error cause => .error item.1 cause

/-- Take the element at a position out of a list. -/
def removeNth {α : Type} : List α → Nat → Option (α × List α)
  | [], _ => none
  | x :: xs, 0 => some (x, xs)
  | x :: xs, n + 1 =>
    match removeNth xs n with
    | none => none
    | some (y, ys) => some (y, x :: ys)

/-- Modelled from the spec: `ports.output.subscribe`. After the completion
signal it raises `SubscriptionError`. Before that, at any time after `worker`
has returned, it registers the subscriber, which receives every event emitted
after it subscribes; the events emitted earlier are not delivered to it. -/
def Pipeline.subscribe (p : Pipeline) : Except PipelineError Pipeline :=
  if p.finished then .error .subscriptionError
  else .ok { p with inboxes := p.inboxes ++ [[]] }

/-- Modelled from the spec: an event is emitted on the port and delivered to
every subscriber registered at that time. -/
def Pipeline.emit (e : Event) (p : Pipeline) : Pipeline :=
  { p with log := p.log ++ [e], inboxes := p.inboxes.map (fun inbox => inbox ++ [e]) }

/-- Modelled from the spec: one emission. Some pending item completes, which one
being left to the scheduler (`choice`), and its Result or TransformationError
is emitted; once no item is pending the completion signal is emitted and the
port is finished. -/
def Pipeline.step (t : Transform) (choice : Nat) (p : Pipeline) : Pipeline :=
  if p.finished then p
  else
    match removeNth p.pending (choice % p.pending.length) with
    | none => { p.emit .done with finished := true }
    | some (item, rest) => { p.emit (processItem t item) with pending := rest }

/-- What can happen to a pipeline after `worker` has returned: a caller
subscribes, or an item completes. -/
inductive Action where
  | subscribe
  | step (choice : Nat)
  deriving DecidableEq, Repr

/-- Modelled from the spec: the effect of one action on the pipeline. A
subscription that raises `SubscriptionError` registers nothing and delivers
no events. -/
def Pipeline.act (t : Transform) (p : Pipeline) : Action → Pipeline
  | .subscribe =>
    match p.subscribe with
    | .ok q => q
    | .error _ => p
  | .step choice => p.step t choice

/-- The pipeline after a sequence of actions. -/
def Pipeline.run (t : Transform) : Pipeline → List Action → Pipeline
  | p, [] => p
  | p, a :: as => Pipeline.run t (p.act t a) as

/-- Emit a given number of times. -/
def Pipeline.stepN (t : Transform) : Nat → Pipeline → Pipeline
  | 0, p => p
  | n + 1, p => Pipeline.stepN t n (p.step t 0)

/-- Modelled from the spec: the pipeline runs until all submitted items are
processed and the completion signal is out. -/
def Pipeline.drain (t : Transform) (p : Pipeline) : Pipeline :=
  Pipeline.stepN t (p.pending.length + 1) p

/-- The invariant of a pipeline started on `items`, whose first `k` subscribers
registered before anything was emitted. The port has emitted terminal events,
closed by the completion signal once it is finished; these events together
with the events the pending items will give are the events of the submitted
items, each once; a finished pipeline has nothing pending; the first `k`
subscribers are registered and each has been delivered all the port emitted. -/
def Pipeline.Inv (t : Transform) (items : List (String × String)) (k : Nat)
    (p : Pipeline) : Prop :=
  (∃ es, p.log = es ++ (if p.finished then [Event.done] else [])
      ∧ (es ++ p.pending.map (processItem t)).Perm (items.map (processItem t)))
    ∧ (p.finished = true → p.pending = [])
    ∧ k ≤ p.inboxes.length
    ∧ ∀ inbox ∈ p.inboxes.take k, inbox = p.log

/-! ## Sample inputs -/

/-- Two icons, as `feather-icons` holds them. -/
def sampleIcons : JsObject Icon :=
  ⟨[("activity",
      { name := "activity", contents := "<polyline points=22,12,18,12></polyline>",
        tags := ["pulse", "health"], attrs := [("class", "feather feather-activity")],
        toSvg := fun _ => "<svg><polyline points=22,12,18,12></polyline></svg>" }),
    ("x",
      { name := "x", contents := "<line x1=18 y1=6 x2=6 y2=18></line>",
        tags := ["cancel", "close"], attrs := [("class", "feather feather-x")],
        toSvg := fun _ => "<svg><line x1=18 y1=6 x2=6 y2=18></line></svg>" })],
    by decide⟩

/-- The same names and contents as `sampleIcons`, every other field changed. -/
def sampleIconsRetagged : JsObject Icon :=
  ⟨[("activity",
      { name := "renamed", contents := "<polyline points=22,12,18,12></polyline>",
        tags := [], attrs := [], toSvg := fun _ => "" }),
    ("x",
      { name := "", contents := "<line x1=18 y1=6 x2=6 y2=18></line>",
        tags := ["delete"], attrs := [("width", "24")], toSvg := fun _ => "<svg/>" })],
    by decide⟩

/-- A transformation that fails on the payload `bad` and returns every other
payload unchanged. -/
def sampleTransform : Transform :=
  fun payload => if payload = "bad" then .error "rejected" else .ok payload

/-- A batch of two items, the second with the payload `sampleTransform` fails on. -/
def sampleItems : List (String × String) :=
  [("a", "1"), ("b", "bad")]

/-- A schedule: the second item completes, a caller subscribes, an item completes. -/
def sampleActions : List Action :=
  [Action.step 1, Action.subscribe, Action.step 5]

/-- The pipeline `worker` returns on `sampleItems`. -/
def sampleStart : Pipeline :=
  { pending := sampleItems, log := [], inboxes := [], finished := false }

/-! ## Lemmas on lookup and on the batch -/

theorem lookup_of_mem {α : Type} :
    ∀ (l : List (String × α)), (l.map Prod.fst).Nodup →
      ∀ e ∈ l, l.lookup e.1 = some e.2 := by
  intro l
  induction l with
  | nil => intro _ e he; cases he
  | cons hd tl ih =>
    intro hnd e he
    obtain ⟨k, v⟩ := hd
    rw [List.map_cons, List.nodup_cons] at hnd
    rcases List.mem_cons.1 he with h | h
    · subst h
      simp [List.lookup]
    · have hne : (e.1 == k) = false := by
        apply beq_false_of_ne
        intro hk
        have hmem : e.1 ∈ tl.map Prod.fst := List.mem_map_of_mem Prod.fst h
        rw [hk] at hmem
        exact hnd.1 hmem
      rw [List.lookup, hne]
      exact ih hnd.2 e h

theorem JsObject.get_of_mem {α : Type} (o : JsObject α) (e : String × α)
    (he : e ∈ o.entries) : o.get e.1 = some e.2 :=
  lookup_of_mem o.entries o.nodup e he

theorem mapExcept_map_ok {α β γ ε : Type} (f : α → Except ε β) (k : γ → α) (g : γ → β) :
    ∀ (es : List γ), (∀ e ∈ es, f (k e) = .ok (g e)) →
      mapExcept f (es.map k) = .ok (es.map g) := by
  intro es
  induction es with
  | nil => intro _; rfl
  | cons e es ih =>
    intro h
    have h1 := h e (List.mem_cons_self e es)
    have h2 := ih (fun x hx => h x (List.mem_cons_of_mem e hx))
    simp only [List.map_cons, mapExcept, h1, h2]

theorem workItem_of_mem (icons : JsObject Icon) (e : String × Icon)
    (he : e ∈ icons.entries) :
    workItem icons e.1 = .ok (.str e.1, .str e.2.contents) := by
  unfold workItem
  rw [icons.get_of_mem e he]

theorem submittedBatch_eq (icons : JsObject Icon) :
    submittedBatch icons
      = .ok (icons.entries.map (fun e => (JsVal.str e.1, JsVal.str e.2.contents))) := by
  unfold submittedBatch JsObject.keys
  exact mapExcept_map_ok (workItem icons) Prod.fst _ icons.entries
    (fun e he => workItem_of_mem icons e he)

theorem mapExcept_congr {α β ε : Type} (f g : α → Except ε β) :
    ∀ (xs : List α), (∀ x ∈ xs, f x = g x) → mapExcept f xs = mapExcept g xs := by
  intro xs
  induction xs with
  | nil => intro _; rfl
  | cons x xs ih =>
    intro h
    have h1 := h x (List.mem_cons_self x xs)
    have h2 := ih (fun y hy => h y (List.mem_cons_of_mem x hy))
    simp only [mapExcept, h1, h2]

theorem decodeBatch_encode (items : List (String × String)) :
    decodeBatch (items.map encodeItem) = some items := by
  induction items with
  | nil => rfl
  | cons item items ih =>
    simp only [List.map_cons, decodeBatch, ih, encodeItem, toWorkItem]

theorem hasDuplicateName_eq_false (items : List (String × String)) :
    hasDuplicateName items = false ↔ (items.map Prod.fst).Nodup := by
  induction items with
  | nil => simp [hasDuplicateName]
  | cons item items ih =>
    simp only [hasDuplicateName, Bool.or_eq_false_iff, ih, List.map_cons, List.nodup_cons]
    constructor
    · rintro ⟨h1, h2⟩
      refine ⟨?_, h2⟩
      intro hmem
      obtain ⟨other, ho, heq⟩ := List.mem_map.1 hmem
      have hany : items.any (fun other => other.1 == item.1) = true :=
        List.any_eq_true.2 ⟨other, ho, by simp [heq]⟩
      rw [h1] at hany
      cases hany
    · rintro ⟨h1, h2⟩
      refine ⟨?_, h2⟩
      cases hany : items.any (fun other => other.1 == item.1) with
      | false => rfl
      | true =>
        obtain ⟨other, ho, heq⟩ := List.any_eq_true.1 hany
        exact absurd (List.mem_map.2 ⟨other, ho, by simpa using heq⟩) h1

/-- The work items the script submits, before they are written as pairs. -/
theorem submittedBatch_encode (icons : JsObject Icon) :
    submittedBatch icons
      = .ok ((icons.entries.map (fun e => (e.1, e.2.contents))).map encodeItem) := by
  rw [submittedBatch_eq, List.map_map]
  rfl

theorem worker_encode (items : List (String × String))
    (hnd : (items.map Prod.fst).Nodup) :
    worker (items.map encodeItem)
      = .ok { pending := items, log := [], inboxes := [], finished := false } := by
  unfold worker
  simp only [decodeBatch_encode, (hasDuplicateName_eq_false items).2 hnd]
  rfl

theorem iconItems_nodup (icons : JsObject Icon) :
    ((icons.entries.map (fun e => (e.1, e.2.contents))).map Prod.fst).Nodup := by
  rw [List.map_map]
  exact icons.nodup

/-! ## The batch the script submits -/

/-- C1: for every icon mapping the batch passed to `worker` is the keys of the
mapping, in enumeration order, each mapped to the pair of the key and the
contents of the icon stored under it: one pair per icon, as many pairs as
icons, the i-th pair made of the i-th key and of the contents found under it. -/
theorem submittedBatch_maps_keys (icons : JsObject Icon) :
    ∃ batch, submittedBatch icons = .ok batch
      ∧ batch = icons.entries.map (fun e => (JsVal.str e.1, JsVal.str e.2.contents))
      ∧ batch.length = icons.size
      ∧ icons.keys.length = icons.size
      ∧ ∀ (i : Nat) (x : String), icons.keys[i]? = some x →
          ∃ icon, icons.get x = some icon
            ∧ batch[i]? = some (JsVal.str x, JsVal.str icon.contents) := by
  refine ⟨_, submittedBatch_eq icons, rfl, ?_, ?_, ?_⟩
  · simp [JsObject.size]
  · simp [JsObject.keys, JsObject.size]
  · intro i x hx
    simp only [JsObject.keys, List.getElem?_map] at hx
    cases he : icons.entries[i]? with
    | none => rw [he] at hx; cases hx
    | some e =>
      rw [he] at hx
      have hx1 : e.1 = x := Option.some.inj hx
      subst hx1
      refine ⟨e.2, icons.get_of_mem e (List.getElem?_mem he), ?_⟩
      simp [List.getElem?_map, he]

/-- C2: for every icon mapping the batch passed to `worker` is a finite
sequence of pairs whose names are pairwise distinct, no name standing at two
positions, so that the duplicate-name condition of a submission is not met. -/
theorem submittedBatch_names_distinct (icons : JsObject Icon) :
    ∃ batch, submittedBatch icons = .ok batch
      ∧ (batch.map Prod.fst).Nodup
      ∧ (∀ (i j : Nat) (a b : JsVal × JsVal), i < j →
          batch[i]? = some a → batch[j]? = some b → a.1 ≠ b.1)
      ∧ ∃ items, decodeBatch batch = some items ∧ hasDuplicateName items = false := by
  have hnames : ((icons.entries.map
      (fun e => (JsVal.str e.1, JsVal.str e.2.contents))).map Prod.fst).Nodup := by
    have h : (icons.entries.map (fun e => (JsVal.str e.1, JsVal.str e.2.contents))).map Prod.fst
        = (icons.entries.map Prod.fst).map JsVal.str := by
      simp [List.map_map, Function.comp_def]
    rw [h]
    exact icons.nodup.map (fun a b hab => by injection hab)
  refine ⟨_, submittedBatch_eq icons, hnames, ?_, ?_⟩
  · intro i j a b hij ha hb hab
    have hi : (List.map Prod.fst (icons.entries.map
        (fun e => (JsVal.str e.1, JsVal.str e.2.contents))))[i]? = some a.1 := by
      rw [List.getElem?_map, ha]; rfl
    have hj : (List.map Prod.fst (icons.entries.map
        (fun e => (JsVal.str e.1, JsVal.str e.2.contents))))[j]? = some b.1 := by
      rw [List.getElem?_map, hb]; rfl
    rw [← hab] at hj
    have := (List.getElem?_inj (List.getElem?_eq_some.1 hi).1 hnames (hi.trans hj.symm))
    omega
  · refine ⟨icons.entries.map (fun e => (e.1, e.2.contents)), ?_, ?_⟩
    · have h := decodeBatch_encode (icons.entries.map (fun e => (e.1, e.2.contents)))
      rw [List.map_map] at h
      exact h
    · exact (hasDuplicateName_eq_false _).2 (iconItems_nodup icons)

/-- C3: every pair of the batch the script submits is a well-formed work
item: its name is a string and its payload is a string, never `undefined`, so
the batch decodes and `worker` does not raise `SubmissionError` on it. -/
theorem submittedBatch_well_formed (icons : JsObject Icon) :
    ∃ batch, submittedBatch icons = .ok batch
      ∧ (∀ pr ∈ batch, ∃ name payload, pr = (JsVal.str name, JsVal.str payload))
      ∧ (∀ pr ∈ batch, pr.2 ≠ JsVal.undefined ∧ toWorkItem pr ≠ none)
      ∧ (∃ items, decodeBatch batch = some items)
      ∧ ∃ p, worker batch = .ok p := by
  refine ⟨_, submittedBatch_eq icons, ?_, ?_, ?_, ?_⟩
  · intro pr hpr
    obtain ⟨e, _, rfl⟩ := List.mem_map.1 hpr
    exact ⟨e.1, e.2.contents, rfl⟩
  · intro pr hpr
    obtain ⟨e, _, rfl⟩ := List.mem_map.1 hpr
    exact ⟨by simp, by simp [toWorkItem]⟩
  · refine ⟨icons.entries.map (fun e => (e.1, e.2.contents)), ?_⟩
    have h := decodeBatch_encode (icons.entries.map (fun e => (e.1, e.2.contents)))
    rw [List.map_map] at h
    exact h
  · have h := worker_encode _ (iconItems_nodup icons)
    rw [List.map_map] at h
    exact ⟨_, h⟩

/-- C9: building the batch never fails on a missing icon. For every icon
mapping and every name enumerated by `Object.keys`, the lookup of the name is
defined, so the arrow function reads `.contents` of an icon and returns its
pair instead of throwing. -/
theorem lookup_of_key_defined (icons : JsObject Icon) (x : String)
    (hx : x ∈ icons.keys) :
    icons.get x ≠ none
      ∧ ∃ icon, icons.get x = some icon
          ∧ workItem icons x = .ok (JsVal.str x, JsVal.str icon.contents) := by
  obtain ⟨e, he, rfl⟩ := List.mem_map.1 hx
  have hget := icons.get_of_mem e he
  exact ⟨by rw [hget]; simp, e.2, hget, workItem_of_mem icons e he⟩

/-- C10: the batch depends on the icon names and on the `contents` fields
only. Two icon mappings with the same keys in the same order and the same
contents under every key give the same batch, whatever their other fields. -/
theorem submittedBatch_depends_on_contents (a b : JsObject Icon)
    (hkeys : a.keys = b.keys)
    (hcontents : ∀ x ∈ a.keys, (a.get x).map Icon.contents = (b.get x).map Icon.contents) :
    submittedBatch a = submittedBatch b := by
  unfold submittedBatch
  rw [← hkeys]
  apply mapExcept_congr
  intro x hx
  have h := hcontents x hx
  unfold workItem
  cases ha : a.get x with
  | none =>
    cases hb : b.get x with
    | none => rfl
    | some _ => rw [ha, hb] at h; cases h
  | some ia =>
    cases hb : b.get x with
    | none => rw [ha, hb] at h; cases h
    | some ib =>
      rw [ha, hb] at h
      simp only [Option.map_some'] at h
      have hc : ia.contents = ib.contents := Option.some.inj h
      simp only [hc]

/-- Witness of C9 on the icon `x` of the sample mapping. -/
theorem lookup_of_key_defined_witness :
    "x" ∈ sampleIcons.keys
      ∧ sampleIcons.get "x" ≠ none
      ∧ ∃ icon, sampleIcons.get "x" = some icon
          ∧ workItem sampleIcons "x" = .ok (JsVal.str "x", JsVal.str icon.contents) :=
  ⟨by decide, lookup_of_key_defined sampleIcons "x" (by decide)⟩

/-- Witness of C10 on two mappings that differ in every field but the contents. -/
theorem submittedBatch_depends_on_contents_witness :
    sampleIcons.keys = sampleIconsRetagged.keys
      ∧ submittedBatch sampleIcons = submittedBatch sampleIconsRetagged :=
  ⟨by decide,
    submittedBatch_depends_on_contents sampleIcons sampleIconsRetagged (by decide) (by decide)⟩

/-! ## The subscriber and the control flow -/

theorem deliver_subscriber {α : Type} (values : List α) :
    ∀ (c : Console α), deliver subscriber values c = c ++ values := by
  induction values with
  | nil => intro c; simp [deliver]
  | cons v vs ih =>
    intro c
    simp [deliver, ih, subscriber, consoleLog]

/-- C4: the subscriber prints each result. Whatever sequence of values is
delivered to the callback, the values passed to `console.log` are that same
sequence, after what the console already held: every value once, unchanged
and in delivery order. -/
theorem subscriber_logs_each_value {α : Type} (values : List α) (c : Console α) :
    deliver subscriber values c = c ++ values
      ∧ deliver subscriber values ([] : Console α) = values
      ∧ (deliver subscriber values c).length = c.length + values.length
      ∧ ∀ (i : Nat), (deliver subscriber values ([] : Console α))[i]? = values[i]? := by
  refine ⟨deliver_subscriber values c, ?_, ?_, ?_⟩
  · simp [deliver_subscriber]
  · simp [deliver_subscriber]
  · intro i
    simp [deliver_subscriber]

/-- C8: the control flow of the script. For every icon mapping it makes one
call to `worker`, with the whole batch, and then one call to `subscribe`, on
the `output` port of the handle that call returned and with the logging
callback; these are the only two calls and they are adjacent. -/
theorem build_calls {α : Type} (icons : JsObject Icon) (h : Host α) :
    ∃ batch, submittedBatch icons = .ok batch
      ∧ build icons h = .ok
          { nextHandle := h.nextHandle + 1,
            calls := h.calls ++
              [Call.worker batch h.nextHandle,
               Call.subscribe h.nextHandle "output" subscriber] } := by
  refine ⟨_, submittedBatch_eq icons, ?_⟩
  simp [build, submittedBatch_eq, Host.worker, Host.subscribe]

/-! ## The pipeline: invariant and completion -/

theorem removeNth_perm {α : Type} :
    ∀ (l : List α) (i : Nat) (y : α) (ys : List α),
      removeNth l i = some (y, ys) → l.Perm (y :: ys) := by
  intro l
  induction l with
  | nil => intro i y ys h; simp [removeNth] at h
  | cons x xs ih =>
    intro i y ys h
    cases i with
    | zero =>
      simp only [removeNth, Option.some.injEq, Prod.mk.injEq] at h
      obtain ⟨rfl, rfl⟩ := h
      exact List.Perm.refl _
    | succ n =>
      simp only [removeNth] at h
      cases hr : removeNth xs n with
      | none => rw [hr] at h; cases h
      | some pr =>
        obtain ⟨z, zs⟩ := pr
        rw [hr] at h
        simp only [Option.some.injEq, Prod.mk.injEq] at h
        obtain ⟨rfl, rfl⟩ := h
        exact ((ih n z zs hr).cons x).trans (List.Perm.swap z x zs)

theorem removeNth_of_lt {α : Type} :
    ∀ (l : List α) (i : Nat), i < l.length → ∃ y ys, removeNth l i = some (y, ys) := by
  intro l
  induction l with
  | nil => intro i h; simp at h
  | cons x xs ih =>
    intro i h
    cases i with
    | zero => exact ⟨x, xs, rfl⟩
    | succ n =>
      obtain ⟨y, ys, hr⟩ := ih n (by simpa using h)
      exact ⟨y, x :: ys, by simp [removeNth, hr]⟩

theorem removeNth_mod_none {α : Type} (l : List α) (choice : Nat)
    (h : removeNth l (choice % l.length) = none) : l = [] := by
  cases l with
  | nil => rfl
  | cons x xs =>
    obtain ⟨y, ys, hr⟩ := removeNth_of_lt (x :: xs) (choice % (x :: xs).length)
      (Nat.mod_lt _ (by simp))
    rw [hr] at h
    cases h

theorem Pipeline.inv_registered (t : Transform) (items : List (String × String)) (k : Nat) :
    Pipeline.Inv t items k
      { pending := items, log := [], inboxes := List.replicate k [], finished := false } := by
  refine ⟨⟨[], by simp, by simp⟩, by simp, by simp, ?_⟩
  intro inbox hin
  exact List.eq_of_mem_replicate (List.mem_of_mem_take hin)

theorem Pipeline.inv_step (t : Transform) (items : List (String × String)) (k choice : Nat)
    (p : Pipeline) (h : Pipeline.Inv t items k p) :
    Pipeline.Inv t items k (p.step t choice) := by
  obtain ⟨⟨es, hlog, hperm⟩, hdrained, hk, hinbox⟩ := h
  unfold Pipeline.step
  by_cases hf : p.finished = true
  · rw [if_pos hf]
    exact ⟨⟨es, hlog, hperm⟩, hdrained, hk, hinbox⟩
  · rw [if_neg hf]
    have hlog1 : p.log = es := by simpa [hf] using hlog
    have hserved : ∀ (e : Event),
        ∀ inbox ∈ (p.inboxes.map (fun inbox => inbox ++ [e])).take k,
          inbox = p.log ++ [e] := by
      intro e inbox hin
      rw [← List.map_take] at hin
      obtain ⟨before, hbefore, rfl⟩ := List.mem_map.1 hin
      rw [hinbox before hbefore]
    cases hr : removeNth p.pending (choice % p.pending.length) with
    | none =>
      have hpend := removeNth_mod_none p.pending choice hr
      exact ⟨⟨es, by simp [Pipeline.emit, hlog1], by simpa [Pipeline.emit] using hperm⟩,
        fun _ => by simpa [Pipeline.emit] using hpend,
        by simpa [Pipeline.emit] using hk,
        by simpa [Pipeline.emit] using hserved Event.done⟩
    | some pr =>
      obtain ⟨item, rest⟩ := pr
      have hp := removeNth_perm p.pending _ item rest hr
      refine ⟨⟨es ++ [processItem t item], by simp [Pipeline.emit, hlog1, hf], ?_⟩,
        fun hfin => by simp [Pipeline.emit, hf] at hfin,
        by simpa [Pipeline.emit] using hk,
        by simpa [Pipeline.emit] using hserved (processItem t item)⟩
      have h1 : (es ++ [processItem t item] ++ rest.map (processItem t)).Perm
          (es ++ p.pending.map (processItem t)) := by
        rw [List.append_assoc]
        exact List.Perm.append_left es (hp.map (processItem t)).symm
      exact h1.trans hperm

theorem Pipeline.act_subscribe_finished (t : Transform) (p : Pipeline)
    (hf : p.finished = true) : p.act t Action.subscribe = p := by
  simp [Pipeline.act, Pipeline.subscribe, hf]

theorem Pipeline.act_subscribe_running (t : Transform) (p : Pipeline)
    (hf : p.finished = false) :
    p.act t Action.subscribe = { p with inboxes := p.inboxes ++ [[]] } := by
  simp [Pipeline.act, Pipeline.subscribe, hf]

theorem Pipeline.inv_act (t : Transform) (items : List (String × String)) (k : Nat)
    (a : Action) (p : Pipeline) (h : Pipeline.Inv t items k p) :
    Pipeline.Inv t items k (p.act t a) := by
  cases a with
  | step choice => exact Pipeline.inv_step t items k choice p h
  | subscribe =>
    cases hf : p.finished with
    | true => rw [Pipeline.act_subscribe_finished t p hf]; exact h
    | false =>
      rw [Pipeline.act_subscribe_running t p hf]
      obtain ⟨hlog, hdrained, hk, hinbox⟩ := h
      refine ⟨hlog, hdrained, ?_, ?_⟩
      · simp only [List.length_append, List.length_singleton]
        omega
      · intro inbox hin
        simp only [List.take_append_of_le_length hk] at hin
        exact hinbox inbox hin

theorem Pipeline.inv_run (t : Transform) (items : List (String × String)) (k : Nat) :
    ∀ (acts : List Action) (p : Pipeline),
      Pipeline.Inv t items k p → Pipeline.Inv t items k (Pipeline.run t p acts) := by
  intro acts
  induction acts with
  | nil => intro p h; exact h
  | cons a as ih => intro p h; exact ih _ (Pipeline.inv_act t items k a p h)

theorem Pipeline.inv_stepN (t : Transform) (items : List (String × String)) (k : Nat) :
    ∀ (n : Nat) (p : Pipeline),
      Pipeline.Inv t items k p → Pipeline.Inv t items k (Pipeline.stepN t n p) := by
  intro n
  induction n with
  | zero => intro p h; exact h
  | succ n ih => intro p h; exact ih _ (Pipeline.inv_step t items k 0 p h)

theorem Pipeline.run_append (t : Transform) :
    ∀ (as bs : List Action) (p : Pipeline),
      Pipeline.run t p (as ++ bs) = Pipeline.run t (Pipeline.run t p as) bs := by
  intro as
  induction as with
  | nil => intro bs p; rfl
  | cons a as ih => intro bs p; exact ih bs _

theorem Pipeline.run_subscribes (t : Transform) :
    ∀ (k : Nat) (p : Pipeline), p.finished = false →
      Pipeline.run t p (List.replicate k Action.subscribe)
        = { p with inboxes := p.inboxes ++ List.replicate k [] } := by
  intro k
  induction k with
  | zero => intro p _; simp [Pipeline.run]
  | succ k ih =>
    intro p hf
    rw [List.replicate_succ, Pipeline.run, Pipeline.act_subscribe_running t p hf]
    have h := ih { p with inboxes := p.inboxes ++ [[]] } hf
    rw [h]
    simp [List.replicate_succ]

theorem Pipeline.step_of_finished (t : Transform) (choice : Nat) (p : Pipeline)
    (hf : p.finished = true) : p.step t choice = p := by
  simp [Pipeline.step, hf]

theorem Pipeline.stepN_of_finished (t : Transform) :
    ∀ (n : Nat) (p : Pipeline), p.finished = true → Pipeline.stepN t n p = p := by
  intro n
  induction n with
  | zero => intro p _; rfl
  | succ n ih =>
    intro p hf
    simp only [Pipeline.stepN, Pipeline.step_of_finished t 0 p hf]
    exact ih p hf

theorem Pipeline.stepN_finished (t : Transform) :
    ∀ (n : Nat) (p : Pipeline),
      p.pending.length < n → (Pipeline.stepN t n p).finished = true := by
  intro n
  induction n with
  | zero => intro p h; omega
  | succ n ih =>
    intro p h
    cases hf : p.finished with
    | true => rw [Pipeline.stepN_of_finished t _ p hf]; exact hf
    | false =>
      simp only [Pipeline.stepN]
      cases hr : removeNth p.pending (0 % p.pending.length) with
      | none =>
        rw [Nat.zero_mod] at hr
        have hfin : (p.step t 0).finished = true := by
          simp [Pipeline.step, hf, hr, Pipeline.emit]
        rw [Pipeline.stepN_of_finished t n _ hfin]
        exact hfin
      | some pr =>
        obtain ⟨item, rest⟩ := pr
        have hlen := (removeNth_perm p.pending _ item rest hr).length_eq
        rw [Nat.zero_mod] at hr
        apply ih
        have hpend : (p.step t 0).pending = rest := by
          simp [Pipeline.step, hf, hr, Pipeline.emit]
        rw [hpend]
        simp only [List.length_cons] at hlen
        omega

/-- Completion: a batch is submitted, `k` callers subscribe before anything is
emitted, and then callers and scheduler do as they please. Running the
pipeline out finishes the port, and each of the `k` subscribers has then been
delivered one and the same sequence, the events of the submitted items in
some order followed by the completion signal. -/
theorem Pipeline.served (t : Transform) (items : List (String × String)) (k : Nat)
    (acts : List Action) :
    ((Pipeline.run t { pending := items, log := [], inboxes := [], finished := false }
        (List.replicate k Action.subscribe ++ acts)).drain t).finished = true
      ∧ ∃ es, es.Perm (items.map (processItem t))
          ∧ ∀ i, i < k →
              ((Pipeline.run t { pending := items, log := [], inboxes := [], finished := false }
                (List.replicate k Action.subscribe ++ acts)).drain t).inboxes[i]?
                = some (es ++ [Event.done]) := by
  rw [Pipeline.run_append, Pipeline.run_subscribes t k _ rfl]
  simp only [List.nil_append]
  have hfin : ((Pipeline.run t
      { pending := items, log := [], inboxes := List.replicate k [], finished := false }
      acts).drain t).finished = true :=
    Pipeline.stepN_finished t _ _ (Nat.lt_succ_self _)
  have hinv := Pipeline.inv_stepN t items k
    ((Pipeline.run t
      { pending := items, log := [], inboxes := List.replicate k [], finished := false }
      acts).pending.length + 1) _
    (Pipeline.inv_run t items k acts _ (Pipeline.inv_registered t items k))
  refine ⟨hfin, ?_⟩
  obtain ⟨⟨es, hlog, hperm⟩, hdrained, hk, hinbox⟩ := hinv
  refine ⟨es, ?_, ?_⟩
  · have hpend := hdrained hfin
    unfold Pipeline.drain at hpend
    simpa [hpend] using hperm
  · intro i hi
    unfold Pipeline.drain at hfin ⊢
    have hlt := Nat.lt_of_lt_of_le hi hk
    have hget := List.getElem?_eq_getElem hlt
    have hmem := List.getElem?_mem ((List.getElem?_take_of_lt hi).trans hget)
    rw [hget, hinbox _ hmem, hlog, hfin]
    rfl

theorem processItem_isTerminal (t : Transform) (item : String × String) :
    (processItem t item).isTerminal = true := by
  unfold processItem
  cases t item.2 <;> rfl

theorem processItem_name (t : Transform) (item : String × String) :
    (processItem t item).name? = some item.1 := by
  unfold processItem
  cases t item.2 <;> rfl

theorem names_of_processed (t : Transform) (items : List (String × String)) :
    (items.map (processItem t)).filterMap Event.name? = items.map Prod.fst := by
  induction items with
  | nil => rfl
  | cons item items ih =>
    simp only [List.map_cons, List.filterMap_cons, processItem_name, ih]

/-- The calls the script makes, run against the pipeline of the spec and run
out: the batch is accepted, the subscription is registered before anything is
emitted, and the subscriber of the script, the first one, has been delivered
the events of the icons in some order, then the completion signal. -/
theorem build_delivery (t : Transform) (icons : JsObject Icon) (acts : List Action) :
    ∃ batch p0 p1, submittedBatch icons = .ok batch
      ∧ worker batch = .ok p0
      ∧ p0.subscribe = .ok p1
      ∧ ∃ inbox rest es, ((p1.run t acts).drain t).inboxes = inbox :: rest
          ∧ inbox = es ++ [Event.done]
          ∧ es.Perm ((icons.entries.map (fun e => (e.1, e.2.contents))).map (processItem t)) := by
  refine ⟨_, _, _, submittedBatch_encode icons,
    worker_encode _ (iconItems_nodup icons), rfl, ?_⟩
  obtain ⟨_, es, hperm, hget⟩ :=
    Pipeline.served t (icons.entries.map (fun e => (e.1, e.2.contents))) 1 acts
  have h0 := hget 0 Nat.zero_lt_one
  have hrun : Pipeline.run t
      { pending := icons.entries.map (fun e => (e.1, e.2.contents)),
        log := [], inboxes := [], finished := false }
      (List.replicate 1 Action.subscribe ++ acts)
      = Pipeline.run t
          { pending := icons.entries.map (fun e => (e.1, e.2.contents)),
            log := [], inboxes := [] ++ [[]], finished := false } acts := rfl
  rw [hrun] at h0
  cases hq : ((Pipeline.run t
      { pending := icons.entries.map (fun e => (e.1, e.2.contents)),
        log := [], inboxes := [] ++ [[]], finished := false } acts).drain t).inboxes with
  | nil => rw [hq] at h0; simp at h0
  | cons inbox rest =>
    rw [hq] at h0
    simp only [List.getElem?_cons_zero, Option.some.injEq] at h0
    exact ⟨inbox, rest, es, rfl, h0, hperm⟩

theorem terminal_of_perm (t : Transform) (items : List (String × String)) (es : List Event)
    (hperm : es.Perm (items.map (processItem t))) :
    es.length = items.length ∧ (∀ e ∈ es, e.isTerminal = true)
      ∧ (es ++ [Event.done]).count Event.done = 1 := by
  have hterm : ∀ e ∈ es, e.isTerminal = true := by
    intro e he
    obtain ⟨item, _, rfl⟩ := List.mem_map.1 (hperm.mem_iff.1 he)
    exact processItem_isTerminal t item
  refine ⟨by simpa using hperm.length_eq, hterm, ?_⟩
  have hnot : Event.done ∉ es := fun hd => by
    have := hterm _ hd
    simp [Event.isTerminal] at this
  rw [List.count_append, List.count_eq_zero.2 hnot]
  simp

theorem names_of_delivered (t : Transform) (items : List (String × String))
    (es : List Event) (hperm : es.Perm (items.map (processItem t))) :
    ((es ++ [Event.done]).filterMap Event.name?).Perm (items.map Prod.fst) := by
  have h := hperm.filterMap Event.name?
  rw [names_of_processed] at h
  simpa [List.filterMap_append, Event.name?] using h

/-! ## The pipeline: what a subscriber is delivered -/

/-- C5, as amended: for every duplicate-free batch of size N submitted through
`worker` (the non-empty ones among them), whatever the completion order and
whatever else callers do, the pipeline runs to completion and every subscriber
that subscribed before the first event was emitted is registered and has been
delivered exactly N terminal events followed by exactly one completion signal;
and the subscriber of the script, for every icon mapping, is delivered one
terminal event per icon, then the completion signal. -/
theorem terminal_events_then_completion (t : Transform) (items : List (String × String))
    (k : Nat) (acts : List Action) (hnd : (items.map Prod.fst).Nodup) :
    (∃ p0, worker (items.map encodeItem) = .ok p0
        ∧ ((p0.run t (List.replicate k Action.subscribe ++ acts)).drain t).finished = true
        ∧ ∀ i, i < k →
            ∃ inbox evs,
              ((p0.run t (List.replicate k Action.subscribe ++ acts)).drain t).inboxes[i]?
                  = some inbox
                ∧ inbox = evs ++ [Event.done]
                ∧ evs.length = items.length
                ∧ (∀ e ∈ evs, e.isTerminal = true)
                ∧ inbox.count Event.done = 1)
      ∧ ∀ icons : JsObject Icon,
          ∃ batch p0 p1, submittedBatch icons = .ok batch
            ∧ worker batch = .ok p0
            ∧ p0.subscribe = .ok p1
            ∧ ∃ inbox rest evs, ((p1.run t acts).drain t).inboxes = inbox :: rest
                ∧ inbox = evs ++ [Event.done]
                ∧ evs.length = icons.size
                ∧ (∀ e ∈ evs, e.isTerminal = true)
                ∧ inbox.count Event.done = 1 := by
  constructor
  · refine ⟨_, worker_encode items hnd, ?_⟩
    obtain ⟨hfin, es, hperm, hget⟩ := Pipeline.served t items k acts
    refine ⟨hfin, ?_⟩
    intro i hi
    obtain ⟨h1, h2, h3⟩ := terminal_of_perm t items es hperm
    exact ⟨es ++ [Event.done], es, hget i hi, rfl, h1, h2, h3⟩
  · intro icons
    obtain ⟨batch, p0, p1, hb, hw, hs, inbox, rest, es, hq, hin, hperm⟩ :=
      build_delivery t icons acts
    obtain ⟨h1, h2, h3⟩ := terminal_of_perm t _ es hperm
    refine ⟨batch, p0, p1, hb, hw, hs, inbox, rest, es, hq, hin, ?_, h2, by rw [hin]; exact h3⟩
    simpa [JsObject.size] using h1

/-- Witness of C5: the sample batch, two subscribers registered at once, then
the sample schedule. -/
theorem terminal_events_then_completion_witness :
    (sampleItems.map Prod.fst).Nodup
      ∧ ∃ p0, worker (sampleItems.map encodeItem) = .ok p0
          ∧ ((p0.run sampleTransform
                (List.replicate 2 Action.subscribe ++ sampleActions)).drain
                sampleTransform).finished = true
          ∧ ∀ i, i < 2 →
              ∃ inbox evs,
                ((p0.run sampleTransform
                    (List.replicate 2 Action.subscribe ++ sampleActions)).drain
                    sampleTransform).inboxes[i]? = some inbox
                  ∧ inbox = evs ++ [Event.done]
                  ∧ evs.length = sampleItems.length
                  ∧ (∀ e ∈ evs, e.isTerminal = true)
                  ∧ inbox.count Event.done = 1 :=
  ⟨by decide,
    (terminal_events_then_completion sampleTransform sampleItems 2 sampleActions
      (by decide)).1⟩

/-- Counterexample to C5 as stated: the sample batch has two items, the caller
subscribes after the first event, the subscription is accepted, and the
subscriber is delivered one terminal event, not two. -/
theorem late_subscriber_terminal_count :
    worker (sampleItems.map encodeItem) = .ok sampleStart
      ∧ (sampleStart.run sampleTransform [Action.step 1]).subscribe
          = .ok ((sampleStart.run sampleTransform [Action.step 1]).act sampleTransform
              Action.subscribe)
      ∧ ((sampleStart.run sampleTransform sampleActions).drain sampleTransform).inboxes
          = [[Event.result "a" "1", Event.done]]
      ∧ sampleItems.length = 2
      ∧ ¬ ∀ inbox ∈
            ((sampleStart.run sampleTransform sampleActions).drain sampleTransform).inboxes,
          (inbox.filter Event.isTerminal).length = sampleItems.length :=
  ⟨rfl, rfl, by decide, rfl, by decide⟩

/-- C6, as amended: whatever the emission order, the names carried by the
Results and TransformationErrors delivered to a subscriber that subscribed
before the first event was emitted are the submitted names, each once, none
missing; for the script, they are the keys of the icon mapping, each once. -/
theorem delivered_names_are_submitted_names (t : Transform)
    (items : List (String × String)) (k : Nat) (acts : List Action)
    (hnd : (items.map Prod.fst).Nodup) :
    (∃ p0, worker (items.map encodeItem) = .ok p0
        ∧ ∀ i, i < k →
            ∃ inbox,
              ((p0.run t (List.replicate k Action.subscribe ++ acts)).drain t).inboxes[i]?
                  = some inbox
                ∧ (inbox.filterMap Event.name?).Perm (items.map Prod.fst)
                ∧ (inbox.filterMap Event.name?).Nodup
                ∧ ∀ n, n ∈ inbox.filterMap Event.name? ↔ n ∈ items.map Prod.fst)
      ∧ ∀ icons : JsObject Icon,
          ∃ batch p0 p1, submittedBatch icons = .ok batch
            ∧ worker batch = .ok p0
            ∧ p0.subscribe = .ok p1
            ∧ ∃ inbox rest, ((p1.run t acts).drain t).inboxes = inbox :: rest
                ∧ (inbox.filterMap Event.name?).Perm icons.keys
                ∧ (inbox.filterMap Event.name?).Nodup := by
  constructor
  · refine ⟨_, worker_encode items hnd, ?_⟩
    obtain ⟨_, es, hperm, hget⟩ := Pipeline.served t items k acts
    intro i hi
    have hp := names_of_delivered t items es hperm
    exact ⟨es ++ [Event.done], hget i hi, hp, hp.nodup_iff.2 hnd, fun n => hp.mem_iff⟩
  · intro icons
    obtain ⟨batch, p0, p1, hb, hw, hs, inbox, rest, es, hq, hin, hperm⟩ :=
      build_delivery t icons acts
    have hp := names_of_delivered t _ es hperm
    rw [← hin, List.map_map] at hp
    exact ⟨batch, p0, p1, hb, hw, hs, inbox, rest, hq, hp, hp.nodup_iff.2 icons.nodup⟩

/-- Witness of C6: the sample batch, two subscribers registered at once, then
the sample schedule. -/
theorem delivered_names_are_submitted_names_witness :
    (sampleItems.map Prod.fst).Nodup
      ∧ ∃ p0, worker (sampleItems.map encodeItem) = .ok p0
          ∧ ∀ i, i < 2 →
              ∃ inbox,
                ((p0.run sampleTransform
                    (List.replicate 2 Action.subscribe ++ sampleActions)).drain
                    sampleTransform).inboxes[i]? = some inbox
                  ∧ (inbox.filterMap Event.name?).Perm (sampleItems.map Prod.fst)
                  ∧ (inbox.filterMap Event.name?).Nodup
                  ∧ ∀ n, n ∈ inbox.filterMap Event.name? ↔ n ∈ sampleItems.map Prod.fst :=
  ⟨by decide,
    (delivered_names_are_submitted_names sampleTransform sampleItems 2 sampleActions
      (by decide)).1⟩

/-- Counterexample to C6 as stated: the caller subscribes after the event of
the item `b`, the subscription is accepted, and the names it is delivered are
`a` alone, the submitted name `b` missing. -/
theorem late_subscriber_misses_name :
    worker (sampleItems.map encodeItem) = .ok sampleStart
      ∧ (sampleStart.run sampleTransform [Action.step 1]).finished = false
      ∧ (((sampleStart.run sampleTransform sampleActions).drain sampleTransform).inboxes.map
            (fun inbox => inbox.filterMap Event.name?)) = [["a"]]
      ∧ sampleItems.map Prod.fst = ["a", "b"]
      ∧ ¬ ∀ inbox ∈
            ((sampleStart.run sampleTransform sampleActions).drain sampleTransform).inboxes,
          ∀ n ∈ sampleItems.map Prod.fst, n ∈ inbox.filterMap Event.name? :=
  ⟨rfl, by decide, by decide, rfl, by decide⟩

/-- C7, as amended: when the transformation of one submitted item fails, every
subscriber that subscribed before the first event was emitted is delivered a
TransformationError carrying the name of that item, and every other item of
the batch still has its own event delivered to it, its Result when its
transformation succeeds: the failure removes nothing. The subscriber of the
script is such a subscriber: for every icon it is delivered the
TransformationError of the icon when the transformation fails on its
contents, its Result otherwise. -/
theorem failure_does_not_block_others (t : Transform) (items : List (String × String))
    (k : Nat) (acts : List Action) (hnd : (items.map Prod.fst).Nodup)
    (name payload cause : String) (hmem : (name, payload) ∈ items)
    (hfail : t payload = .error cause) :
    (∃ p0, worker (items.map encodeItem) = .ok p0
        ∧ ((p0.run t (List.replicate k Action.subscribe ++ acts)).drain t).finished = true
        ∧ ∀ i, i < k →
            ∃ inbox,
              ((p0.run t (List.replicate k Action.subscribe ++ acts)).drain t).inboxes[i]?
                  = some inbox
                ∧ Event.error name cause ∈ inbox
                ∧ ∀ other ∈ items, other ≠ (name, payload) →
                    processItem t other ∈ inbox
                      ∧ ∀ v, t other.2 = .ok v → Event.result other.1 v ∈ inbox)
      ∧ ∀ icons : JsObject Icon,
          ∃ batch p0 p1, submittedBatch icons = .ok batch
            ∧ worker batch = .ok p0
            ∧ p0.subscribe = .ok p1
            ∧ ∃ inbox rest, ((p1.run t acts).drain t).inboxes = inbox :: rest
                ∧ ∀ e ∈ icons.entries,
                    (∀ c, t e.2.contents = .error c → Event.error e.1 c ∈ inbox)
                      ∧ ∀ v, t e.2.contents = .ok v → Event.result e.1 v ∈ inbox := by
  constructor
  · refine ⟨_, worker_encode items hnd, ?_⟩
    obtain ⟨hfin, es, hperm, hget⟩ := Pipeline.served t items k acts
    refine ⟨hfin, ?_⟩
    intro i hi
    have hdel : ∀ item ∈ items, processItem t item ∈ es ++ [Event.done] := by
      intro item hitem
      exact List.mem_append_left _ (hperm.mem_iff.2 (List.mem_map_of_mem _ hitem))
    refine ⟨es ++ [Event.done], hget i hi, ?_, ?_⟩
    · have h := hdel (name, payload) hmem
      simpa [processItem, hfail] using h
    · intro other hother _
      refine ⟨hdel other hother, ?_⟩
      intro v hv
      have h := hdel other hother
      simpa [processItem, hv] using h
  · intro icons
    obtain ⟨batch, p0, p1, hb, hw, hs, inbox, rest, es, hq, hin, hperm⟩ :=
      build_delivery t icons acts
    refine ⟨batch, p0, p1, hb, hw, hs, inbox, rest, hq, ?_⟩
    intro e he
    have hdel : processItem t (e.1, e.2.contents) ∈ inbox := by
      rw [hin]
      exact List.mem_append_left _ (hperm.mem_iff.2
        (List.mem_map_of_mem _ (List.mem_map_of_mem (fun e => (e.1, e.2.contents)) he)))
    constructor
    · intro c hc
      simpa [processItem, hc] using hdel
    · intro v hv
      simpa [processItem, hv] using hdel

/-- Witness of C7: in the sample batch the item `b` fails and `a` does not;
two subscribers are registered at once, then the sample schedule runs. -/
theorem failure_does_not_block_others_witness :
    ∃ p0, worker (sampleItems.map encodeItem) = .ok p0
      ∧ ((p0.run sampleTransform
            (List.replicate 2 Action.subscribe ++ sampleActions)).drain
            sampleTransform).finished = true
      ∧ ∀ i, i < 2 →
          ∃ inbox,
            ((p0.run sampleTransform
                (List.replicate 2 Action.subscribe ++ sampleActions)).drain
                sampleTransform).inboxes[i]? = some inbox
              ∧ Event.error "b" "rejected" ∈ inbox
              ∧ ∀ other ∈ sampleItems, other ≠ ("b", "bad") →
                  processItem sampleTransform other ∈ inbox
                    ∧ ∀ v, sampleTransform other.2 = .ok v →
                        Event.result other.1 v ∈ inbox :=
  (failure_does_not_block_others sampleTransform sampleItems 2 sampleActions (by decide)
    "b" "bad" "rejected" (by decide) rfl).1

/-- Counterexample to C7 as stated: the transformation of the item `b` fails,
the caller subscribes after that event, the subscription is accepted, and no
TransformationError for `b` is delivered to it. -/
theorem late_subscriber_misses_failure :
    worker (sampleItems.map encodeItem) = .ok sampleStart
      ∧ ("b", "bad") ∈ sampleItems
      ∧ sampleTransform "bad" = .error "rejected"
      ∧ (sampleStart.run sampleTransform [Action.step 1]).log = [Event.error "b" "rejected"]
      ∧ (sampleStart.run sampleTransform [Action.step 1]).finished = false
      ∧ ¬ ∀ inbox ∈
            ((sampleStart.run sampleTransform sampleActions).drain sampleTransform).inboxes,
          Event.error "b" "rejected" ∈ inbox :=
  ⟨rfl, by decide, rfl, by decide, by decide, by decide⟩

end FeatherBuild
